import Mathlib

/-!
Verification of the training/evaluation orchestration core of the
code-readability classifier (shallow embedding of
`src/readability_classifier/toch/base_classifier.py`,
`src/readability_classifier/models/base_classifier.py`,
`src/readability_classifier/toch/extractors/structural_extractor.py` and
`src/readability_classifier/models/extractors/semantic_extractor.py`).

Floating point numbers are modelled exactly: control-flow losses and scores
as rationals, metric values (which involve a square root) as reals.
-/

/-! ## Stats data model (`EpochStats`, `TrainStats`) -/

/-- The `EpochStats` dataclass: epoch number with train and validation loss. -/
structure EpochStats where
  epoch : Nat
  train_loss : ℚ
  test_loss : ℚ
  deriving DecidableEq

/-- The `TrainStats` dataclass: best epoch, per-epoch stats and the two timestamps. -/
structure TrainStats where
  best_epoch : Nat
  epoch_stats : List EpochStats
  start_time : Nat
  end_time : Nat
  deriving DecidableEq

/-- Construction `TrainStats(best, stats)` as Python evaluates it: the dataclass declares
`start_time: int = int(time())` and `end_time: int = int(time())`, and Python
evaluates dataclass field defaults once, when the class definition is executed.
`classDefTime` is the clock value at class-definition time; a construction that
passes no explicit times therefore always receives `classDefTime` for both,
regardless of the wall-clock time at which the instance is created. -/
def mkTrainStats (classDefTime : Nat) (best : Nat) (stats : List EpochStats) :
    TrainStats :=
  ⟨best, stats, classDefTime, classDefTime⟩

/-! ## Evaluation metrics data model (`EvaluationStats`, `KFoldStats`) -/

/-- The `EvaluationStats` dataclass: the six evaluation metrics. -/
structure EvaluationStats where
  accuracy : ℝ
  precision : ℝ
  «recall» : ℝ
  f1 : ℝ
  auc : ℝ
  mcc : ℝ

/-- Python's builtin `max` on a list of floats (undefined on `[]`;
we return a junk value there, matching the raised `ValueError`). -/
noncomputable def pyMax : List ℝ → ℝ
  | [] => 0
  | x :: xs => xs.foldl max x

/-- Python's builtin `min` on a list of floats (undefined on `[]`). -/
noncomputable def pyMin : List ℝ → ℝ
  | [] => 0
  | x :: xs => xs.foldl min x

/-- Numpy `np.mean`: arithmetic mean of a list (junk `0/0 = 0` on `[]`). -/
noncomputable def npMean (l : List ℝ) : ℝ := l.sum / l.length

/-- Numpy `np.std`: population standard deviation, the square root of the mean
squared deviation from the mean. -/
noncomputable def npStd (l : List ℝ) : ℝ :=
  Real.sqrt (npMean (l.map (fun x => (x - npMean l) ^ 2)))

/-- The `KFoldStats` dataclass: max/min/mean/std of each metric plus the per-fold
stats. -/
structure KFoldStats where
  max_accuracy : ℝ
  min_accuracy : ℝ
  mean_accuracy : ℝ
  std_accuracy : ℝ
  max_precision : ℝ
  min_precision : ℝ
  mean_precision : ℝ
  std_precision : ℝ
  max_recall : ℝ
  min_recall : ℝ
  mean_recall : ℝ
  std_recall : ℝ
  max_f1 : ℝ
  min_f1 : ℝ
  mean_f1 : ℝ
  std_f1 : ℝ
  max_auc : ℝ
  min_auc : ℝ
  mean_auc : ℝ
  std_auc : ℝ
  max_mcc : ℝ
  min_mcc : ℝ
  mean_mcc : ℝ
  std_mcc : ℝ
  fold_stats : List EvaluationStats

/-- Constructor `KFoldStats.__init__`: stores the fold stats and computes, for each of the
six metrics, `max`/`min`/`np.mean`/`np.std` of that metric over the folds. -/
noncomputable def mkKFoldStats (fold_stats : List EvaluationStats) : KFoldStats where
  max_accuracy := pyMax (fold_stats.map EvaluationStats.accuracy)
  min_accuracy := pyMin (fold_stats.map EvaluationStats.accuracy)
  mean_accuracy := npMean (fold_stats.map EvaluationStats.accuracy)
  std_accuracy := npStd (fold_stats.map EvaluationStats.accuracy)
  max_precision := pyMax (fold_stats.map EvaluationStats.precision)
  min_precision := pyMin (fold_stats.map EvaluationStats.precision)
  mean_precision := npMean (fold_stats.map EvaluationStats.precision)
  std_precision := npStd (fold_stats.map EvaluationStats.precision)
  max_recall := pyMax (fold_stats.map EvaluationStats.«recall»)
  min_recall := pyMin (fold_stats.map EvaluationStats.«recall»)
  mean_recall := npMean (fold_stats.map EvaluationStats.«recall»)
  std_recall := npStd (fold_stats.map EvaluationStats.«recall»)
  max_f1 := pyMax (fold_stats.map EvaluationStats.f1)
  min_f1 := pyMin (fold_stats.map EvaluationStats.f1)
  mean_f1 := npMean (fold_stats.map EvaluationStats.f1)
  std_f1 := npStd (fold_stats.map EvaluationStats.f1)
  max_auc := pyMax (fold_stats.map EvaluationStats.auc)
  min_auc := pyMin (fold_stats.map EvaluationStats.auc)
  mean_auc := npMean (fold_stats.map EvaluationStats.auc)
  std_auc := npStd (fold_stats.map EvaluationStats.auc)
  max_mcc := pyMax (fold_stats.map EvaluationStats.mcc)
  min_mcc := pyMin (fold_stats.map EvaluationStats.mcc)
  mean_mcc := npMean (fold_stats.map EvaluationStats.mcc)
  std_mcc := npStd (fold_stats.map EvaluationStats.mcc)
  fold_stats := fold_stats

/-- Spec-side characterisation: `m` is the maximum of the list. -/
def specIsMaxOf (m : ℝ) (l : List ℝ) : Prop := m ∈ l ∧ ∀ x ∈ l, x ≤ m

/-- Spec-side characterisation: `m` is the minimum of the list. -/
def specIsMinOf (m : ℝ) (l : List ℝ) : Prop := m ∈ l ∧ ∀ x ∈ l, m ≤ x

/-- Spec-side characterisation: `m` is the arithmetic mean of the list. -/
def specIsMeanOf (m : ℝ) (l : List ℝ) : Prop := m * l.length = l.sum

/-- Spec-side characterisation: `s` is the population standard deviation of
the list: the nonnegative number whose square is the mean squared deviation
from the mean. -/
def specIsStdOf (s : ℝ) (l : List ℝ) : Prop :=
  0 ≤ s ∧ s ^ 2 * l.length = (l.map (fun x => (x - l.sum / l.length) ^ 2)).sum

/-! ## Structural extractor shape semantics (`StructuralExtractor`) -/

/-- Shape of a rank-4 tensor `(batch, channels, height, width)`. -/
structure TensorShape4 where
  batch : Nat
  channels : Nat
  height : Nat
  width : Nat
  deriving DecidableEq

/-- Spatial output size of `nn.Conv2d` with square kernel `k`, stride 1,
no padding, no dilation: `n - k + 1`. -/
def conv2dOutDim (n k : Nat) : Nat := n - k + 1

/-- Spatial output size of `nn.MaxPool2d` with square kernel `k`, stride `s`,
no padding, no dilation, `ceil_mode=False`: `(n - k) / s + 1` (floor). -/
def maxPool2dOutDim (n k s : Nat) : Nat := (n - k) / s + 1

/-- Shape of applying `nn.Conv2d(in, cout, kernel_size=k)` to a rank-4 input. -/
def conv2dShape (s : TensorShape4) (cout k : Nat) : TensorShape4 :=
  ⟨s.batch, cout, conv2dOutDim s.height k, conv2dOutDim s.width k⟩

/-- Shape of applying `nn.MaxPool2d(kernel_size=k, stride=st)`; channel count
is preserved. -/
def maxPool2dShape (s : TensorShape4) (k st : Nat) : TensorShape4 :=
  ⟨s.batch, s.channels, maxPool2dOutDim s.height k st,
    maxPool2dOutDim s.width k st⟩

/-- Shape of `nn.Flatten()`: all but the batch dimension are multiplied out. -/
def flattenShape (s : TensorShape4) : Nat × Nat :=
  (s.batch, s.channels * s.height * s.width)

/-- Shape semantics of `StructuralExtractor.forward` on a character matrix of
shape `(b, h, w)`: `unsqueeze(1)`, then
`conv1 = Conv2d(1, 32, kernel_size=2)`, `pool1 = MaxPool2d(2, stride=2)`,
`conv2 = Conv2d(32, 32, kernel_size=2)`, `pool2 = MaxPool2d(2, stride=2)`,
`conv3 = Conv2d(32, 64, kernel_size=3)`, `pool3 = MaxPool2d(3, stride=3)`,
then `Flatten`.  `ReLU` preserves shapes.  The
`StructuralExtractorConfig` accepts and ignores all keyword arguments, so the
forward shape is the same for every valid configuration. -/
def structuralForwardShape (b h w : Nat) : Nat × Nat :=
  let s0 : TensorShape4 := ⟨b, 1, h, w⟩
  let s1 := conv2dShape s0 32 2
  let s2 := maxPool2dShape s1 2 2
  let s3 := conv2dShape s2 32 2
  let s4 := maxPool2dShape s3 2 2
  let s5 := conv2dShape s4 64 3
  let s6 := maxPool2dShape s5 3 3
  flattenShape s6

/-! ## `toch` classifier: `fit` (training loop) -/

/-- Observable side effects of the training loop: a gradient step on one
batch, the per-epoch checkpoint (`store(epoch=...)`), the best-model
checkpoint (`store(path=store_dir/"best_model.pt")`, tagged with the epoch
during which it was written), and the final `train_stats.json` write. -/
inductive Effect where
  | trainStep (epoch batch : Nat)
  | storeEpoch (epoch : Nat)
  | storeBest (epoch : Nat)
  | saveTrainStats
  deriving DecidableEq

/-- Errors surfaced by the training loop: the `ValueError` raised by the
missing-loader configuration checks, and Python's `ZeroDivisionError` from
`loss / len(loader)` on an empty loader. -/
inductive FitErr where
  | configError
  | zeroDivision
  deriving DecidableEq

/-- State threaded through the epoch loop of `fit`: the accumulated
`train_stats.epoch_stats`, the best validation loss so far
(`none` models the initial `float("inf")`), the current
`train_stats.best_epoch`, and the effects performed so far. -/
structure FitState where
  epochStats : List EpochStats
  best : Option ℚ
  bestEpoch : Nat
  effects : List Effect
  deriving DecidableEq

/-- The `toch` `BaseClassifier` as far as `fit` observes it.  A data loader is
abstracted to its batch count (`len(loader)`); the numeric result of the
model/criterion on batch `b` of (1-based) epoch `e` is abstracted into the
oracles `trainBatchLoss`/`valBatchLoss`, which stand for the loss values the
network happens to produce. -/
structure TochClassifier where
  train_loader : Option Nat
  val_loader : Option Nat
  num_epochs : Nat
  trainBatchLoss : Nat → Nat → ℚ
  valBatchLoss : Nat → Nat → ℚ
  classDefTime : Nat

/-- Average of `n` batch losses, `sum(batchLoss b for b < n) / n`
(the final division of `_fit_epoch` / `_val_epoch`). -/
def epochLoss (batchLoss : Nat → ℚ) (n : Nat) : ℚ :=
  ((List.range n).map batchLoss).sum / n

/-- The validation loss `_val_epoch` computes during (1-based) epoch `e`
when the validation loader has `vb` batches. -/
def epochValLoss (c : TochClassifier) (vb : Nat) (e : Nat) : ℚ :=
  epochLoss (c.valBatchLoss e) vb

/-- The condition `val_loss < best_val_set` of `fit`
(`none` is the initial `float("inf")`, smaller than everything). -/
def bestUpdate (best : Option ℚ) (valLoss : ℚ) : Bool :=
  match best with
  | none => true
  | some b => valLoss < b

/-- One iteration of the epoch loop of `fit`, for 0-based loop index `e0`
(the code stores `epoch + 1 = e0 + 1` in the stats): run `_fit_epoch`
(one gradient step per train batch, then average — dividing by zero when the
train loader is empty), run `_val_epoch` (average, dividing by zero when the
validation loader is empty), append the `EpochStats`, `store(epoch=e0+1)`,
and store the best model when the validation loss strictly improves.
An error carries the effects performed up to the raise. -/
def stepEpoch (c : TochClassifier) (tb vb : Nat) (e0 : Nat) (st : FitState) :
    Except (List Effect × FitErr) FitState :=
  let effs1 := st.effects ++ (List.range tb).map (fun b => Effect.trainStep (e0 + 1) b)
  if tb = 0 then .error (effs1, FitErr.zeroDivision)
  else
    let trainLoss := epochLoss (c.trainBatchLoss (e0 + 1)) tb
    if vb = 0 then .error (effs1, FitErr.zeroDivision)
    else
      let valLoss := epochLoss (c.valBatchLoss (e0 + 1)) vb
      let stats := st.epochStats ++ [⟨e0 + 1, trainLoss, valLoss⟩]
      let effs2 := effs1 ++ [Effect.storeEpoch (e0 + 1)]
      if bestUpdate st.best valLoss then
        .ok ⟨stats, some valLoss, e0 + 1, effs2 ++ [Effect.storeBest (e0 + 1)]⟩
      else
        .ok ⟨stats, st.best, st.bestEpoch, effs2⟩

/-- The first `n` iterations of the epoch loop of `fit`, starting from
`TrainStats(0, [])` and `best_val_set = float("inf")`. -/
def runEpochs (c : TochClassifier) (tb vb : Nat) : Nat → Except (List Effect × FitErr) FitState
  | 0 => .ok ⟨[], none, 0, []⟩
  | n + 1 =>
    match runEpochs c tb vb n with
    | .error e => .error e
    | .ok st => stepEpoch c tb vb n st

/-- Method `BaseClassifier.fit` of the `toch` classifier: raise `ValueError` when the
train or validation loader is `None`, otherwise run the epoch loop, then write
`train_stats.json` and return the `TrainStats`.  The result is paired with the
list of side effects performed (also on an exception). -/
def fit (c : TochClassifier) : Except FitErr TrainStats × List Effect :=
  match c.train_loader with
  | none => (.error FitErr.configError, [])
  | some tb =>
    match c.val_loader with
    | none => (.error FitErr.configError, [])
    | some vb =>
      match runEpochs c tb vb c.num_epochs with
      | .error (effs, e) => (.error e, effs)
      | .ok st =>
          (.ok (mkTrainStats c.classDefTime st.bestEpoch st.epochStats),
            st.effects ++ [Effect.saveTrainStats])

/-! ## `models` classifier: `fit` (legacy training loop) -/

/-- The legacy `models.base_classifier.BaseClassifier` as far as its `fit`
observes it.  `_fit_epoch` and `_eval_epoch` are abstract methods there, so
their numeric results are oracles indexed by the 1-based epoch. -/
structure ModelsClassifier where
  train_loader : Option Nat
  test_loader : Option Nat
  validation_loader : Option Nat
  num_epochs : Nat
  fitEpochLoss : Nat → ℚ
  evalEpochLoss : Nat → ℚ
  classDefTime : Nat

/-- One iteration of the epoch loop of the legacy `fit` (no errors possible:
the epoch bodies are abstract). -/
def modelsStepEpoch (c : ModelsClassifier) (e0 : Nat) (st : FitState) : FitState :=
  let trainLoss := c.fitEpochLoss (e0 + 1)
  let testLoss := c.evalEpochLoss (e0 + 1)
  let stats := st.epochStats ++ [⟨e0 + 1, trainLoss, testLoss⟩]
  let effs := st.effects ++ [Effect.storeEpoch (e0 + 1)]
  if bestUpdate st.best testLoss then
    ⟨stats, some testLoss, e0 + 1, effs ++ [Effect.storeBest (e0 + 1)]⟩
  else
    ⟨stats, st.best, st.bestEpoch, effs⟩

/-- The first `n` iterations of the legacy epoch loop. -/
def modelsRunEpochs (c : ModelsClassifier) : Nat → FitState
  | 0 => ⟨[], none, 0, []⟩
  | n + 1 => modelsStepEpoch c n (modelsRunEpochs c n)

/-- Method `BaseClassifier.fit` of the legacy `models` classifier: raise `ValueError`
when the train loader or the **test** loader is `None` (the validation loader
is not checked or used), otherwise run the epoch loop and write
`train_stats.json`.  This `fit` returns `None`. -/
def modelsFit (c : ModelsClassifier) : Except FitErr Unit × List Effect :=
  match c.train_loader with
  | none => (.error FitErr.configError, [])
  | some _ =>
    match c.test_loader with
    | none => (.error FitErr.configError, [])
    | some _ =>
      let st := modelsRunEpochs c c.num_epochs
      (.ok (), st.effects ++ [Effect.saveTrainStats])

/-! ## `toch` classifier: `evaluate` -/

/-- Errors surfaced by `evaluate`: the `ValueError` of the missing-test-loader
check, and the `ValueError` that `sklearn.metrics.roc_auc_score` raises when
only one class is present in `y_true`. -/
inductive EvalErr where
  | configError
  | rocAucUndefined
  deriving DecidableEq

/-- True positives among (true-label, predicted-label) pairs. -/
def countTP (l : List (Bool × Bool)) : Nat := l.countP (fun p => p.1 && p.2)

/-- True negatives. -/
def countTN (l : List (Bool × Bool)) : Nat := l.countP (fun p => !p.1 && !p.2)

/-- False positives (true label negative, predicted label positive). -/
def countFP (l : List (Bool × Bool)) : Nat := l.countP (fun p => !p.1 && p.2)

/-- False negatives. -/
def countFN (l : List (Bool × Bool)) : Nat := l.countP (fun p => p.1 && !p.2)

/-- Method `BaseClassifier.evaluate`: raise `ValueError` when the test loader is
`None`; otherwise collect the (ground-truth score, model output) pairs over
all batches, concatenate and flatten them, threshold both sides at `0.5`
(`np.where(y >= 0.5, 1, 0)`), and compute the sklearn metrics:

* `accuracy_score`: `(TP + TN) / n`;
* `precision_score`: `TP / (TP + FP)`, `0.0` when undefined;
* `recall_score`: `TP / (TP + FN)`, `0.0` when undefined;
* `f1_score`: `2 TP / (2 TP + FP + FN)`, `0.0` when undefined;
* `roc_auc_score` (on binary predictions): `(TPR + TNR) / 2`, raising
  `ValueError` when `y_true` contains only one class;
* `matthews_corrcoef`:
  `(TP·TN − FP·FN) / sqrt((TP+FP)(TP+FN)(TN+FP)(TN+FN))`, `0.0` when the
  denominator vanishes.

Each batch is a list of (ground-truth score, model output) pairs; the model's
numeric outputs are data here since the network itself is not part of the
orchestration layer. -/
noncomputable def evaluate (test_loader : Option (List (List (ℚ × ℚ)))) :
    Except EvalErr EvaluationStats :=
  match test_loader with
  | none => .error EvalErr.configError
  | some batches =>
    let pairs := batches.flatten
    let labels := pairs.map
      (fun p => (decide ((1 : ℚ) / 2 ≤ p.1), decide ((1 : ℚ) / 2 ≤ p.2)))
    let tp := countTP labels
    let tn := countTN labels
    let fp := countFP labels
    let fn := countFN labels
    let n := labels.length
    let acc : ℝ := ((tp : ℝ) + tn) / n
    let prec : ℝ := if tp + fp = 0 then 0 else (tp : ℝ) / ((tp : ℝ) + fp)
    let rcl : ℝ := if tp + fn = 0 then 0 else (tp : ℝ) / ((tp : ℝ) + fn)
    let f1v : ℝ :=
      if 2 * tp + fp + fn = 0 then 0
      else (2 * (tp : ℝ)) / (2 * (tp : ℝ) + fp + fn)
    if tp + fn = 0 ∨ tn + fp = 0 then .error EvalErr.rocAucUndefined
    else
      let aucv : ℝ :=
        ((tp : ℝ) / ((tp : ℝ) + fn) + (tn : ℝ) / ((tn : ℝ) + fp)) / 2
      let d : Nat := (tp + fp) * (tp + fn) * (tn + fp) * (tn + fn)
      let mccv : ℝ :=
        if d = 0 then 0
        else ((tp : ℝ) * tn - (fp : ℝ) * fn) / Real.sqrt (d : ℝ)
      .ok ⟨acc, prec, rcl, f1v, aucv, mccv⟩

/-! ## `toch` classifier: `k_fold_cv` -/

/-- A dataset, abstracted to its list of sample identifiers. -/
abbrev Dataset := List Nat

/-- One cross-validation fold: a train split and a validation split. -/
structure Fold where
  train_set : Dataset
  val_set : Dataset
  deriving DecidableEq

/-- Modelled from the spec: the `i`-th of `k` folds produced by
`split_k_fold` (`src.readability_classifier.encoders.dataset_utils` is not
part of the sources).  The spec only states that the training dataset is
partitioned into `k` folds with a train/validation split per fold; here fold
`i` takes every `k`-th sample (positions `≡ i (mod k)`) as its validation
split and the rest as its train split. -/
def foldOf (d : Dataset) (k i : Nat) : Fold :=
  ⟨(d.enum.filter (fun p => ¬ p.1 % k = i)).map Prod.snd,
   (d.enum.filter (fun p => p.1 % k = i)).map Prod.snd⟩

/-- Modelled from the spec: `split_k_fold(dataset, k_fold=k)` partitions the
training dataset into `k` folds. -/
def split_k_fold (d : Dataset) (k : Nat) : List Fold :=
  (List.range k).map (foldOf d k)

/-- The `toch` `BaseClassifier` as far as `k_fold_cv` observes it.  Model
parameters and optimizer state are abstract values (`Nat`);
`freshBuildParams` is the parameter state produced by
`model.__class__.build_from_config()`, `initial_optimizer_state_dict` the
state dict captured at `__init__`.  The numeric effect of `fit()` on the
model parameters and the optimizer state, and the `EvaluationStats` that
`evaluate()` yields on the (fixed) test loader for given trained parameters,
are oracles. -/
structure KFoldClassifier where
  train_dataset : Option Dataset
  test_dataset : Option Dataset
  modelParams : Nat
  optState : Nat
  initial_optimizer_state_dict : Nat
  freshBuildParams : Nat
  fitParams : Nat → Nat → Fold → Nat
  fitOpt : Nat → Nat → Fold → Nat
  evalStats : Nat → EvaluationStats

/-- State threaded through the fold loop of `k_fold_cv`. -/
structure KFoldState where
  modelParams : Nat
  optState : Nat
  foldStats : List EvaluationStats

/-- One iteration of the fold loop of `k_fold_cv`: build the fold's loaders
and `fit()` (mutating model parameters and optimizer state), `evaluate()` the
trained model against the test loader and collect the stats, then reset the
model to `build_from_config()` and the optimizer to the initial state dict
(the states reached during `fit` are overwritten by these resets). -/
def kFoldStep (c : KFoldClassifier) (st : KFoldState) (fold : Fold) : KFoldState :=
  let trained := c.fitParams st.modelParams st.optState fold
  let stats := c.evalStats trained
  ⟨c.freshBuildParams, c.initial_optimizer_state_dict, st.foldStats ++ [stats]⟩

/-- Method `BaseClassifier.k_fold_cv`: raise `ValueError` when the train or test
dataset is `None`; otherwise loop over the `k` folds of `split_k_fold`,
aggregate the collected per-fold stats into a `KFoldStats` and return it.
The final classifier state (model parameters, optimizer state) is returned
alongside. -/
noncomputable def k_fold_cv (c : KFoldClassifier) (k : Nat) :
    Except FitErr (KFoldStats × KFoldState) :=
  match c.train_dataset with
  | none => .error FitErr.configError
  | some tr =>
    match c.test_dataset with
    | none => .error FitErr.configError
    | some _ =>
      let folds := split_k_fold tr k
      let final := folds.foldl (kFoldStep c) ⟨c.modelParams, c.optState, []⟩
      .ok (mkKFoldStats final.foldStats, final)

/-- Closed form of the per-fold stats produced by the fold loop when started
with model parameters `p` and optimizer state `o`: the first fold is fitted
from `(p, o)`, every later fold from the reset state. -/
def kFoldStatsList (c : KFoldClassifier) (p o : Nat) : List Fold → List EvaluationStats
  | [] => []
  | f :: fs =>
      c.evalStats (c.fitParams p o f) ::
        kFoldStatsList c c.freshBuildParams c.initial_optimizer_state_dict fs

/-! ## `toch` classifier: `store` / `load` -/

/-- The file system as `torch.save`/`torch.load` see it: a map from paths to
saved model-parameter states (`state_dict`s, abstracted to `Nat`). -/
structure TorchFS where
  files : String → Option Nat

/-- A classifier as `store`/`load` observe it: current model parameters and
optimizer state (both abstract). -/
structure SimpleClassifier where
  modelParams : Nat
  optState : Nat
  deriving DecidableEq

/-- Method `BaseClassifier.store(path)`: `torch.save(self.model.state_dict(), path)`
writes the model's parameter state — and nothing else — to `path`. -/
def store (c : SimpleClassifier) (fs : TorchFS) (path : String) : TorchFS :=
  ⟨fun q => if q = path then some c.modelParams else fs.files q⟩

/-- Method `BaseClassifier.load(path)`:
`self.model.load_state_dict(torch.load(path))` replaces the model's parameter
state by the file's content; the optimizer state is untouched.  `none` models
the error raised when no file exists at `path`. -/
def load (c : SimpleClassifier) (fs : TorchFS) (path : String) :
    Option SimpleClassifier :=
  match fs.files path with
  | none => none
  | some p => some { c with modelParams := p }

/-! ## Semantic extractor: `BertEmbedding.forward` id preparation -/

/-- The position ids generated in `BertEmbedding.forward`:
`torch.arange(sequence_length) % self.position_embedding.num_embeddings`,
where `num_embeddings = config.max_position_embeddings`. -/
def bertPositionIds (seqLen maxPos : Nat) : List Nat :=
  (List.range seqLen).map (fun i => i % maxPos)

/-- Torch `full_like(input_ids, 0)`: an all-zero tensor of the input's shape. -/
def fullLikeZero (inputIds : List (List Nat)) : List (List Nat) :=
  inputIds.map (fun row => row.map (fun _ => 0))

/-- The token type ids used by `BertEmbedding.forward`: the given ones, or
`torch.full_like(input_ids, 0)` when they are `None`. -/
def bertTokenTypeIds (inputIds : List (List Nat)) (tt : Option (List (List Nat))) :
    List (List Nat) :=
  match tt with
  | none => fullLikeZero inputIds
  | some t => t

/-! ## Theorems -/

/-- C2 (counterexample): a forward pass of the structural extractor on an
input of shape `(1, 305, 50)` does **not** produce shape `(1, 41472)`; the
layer arithmetic gives `(1, 4608)`, which is also what the repository's own
test asserts. -/
theorem structural_shape_not_41472 :
    structuralForwardShape 1 305 50 ≠ (1, 41472) := by decide

/-- C2 (amended): for every valid configuration of the structural extractor
(the configuration accepts and ignores all parameters), a forward pass on an
input of shape `(1, 305, 50)` returns an output tensor of shape `(1, 4608)`. -/
theorem structural_shape_4608 :
    structuralForwardShape 1 305 50 = (1, 4608) := by decide

/-- C9: every `TrainStats` constructed without explicit `start_time` receives
the value captured once at class-definition time; in particular two instances
created at different wall-clock times (`_t1`, `_t2`) in the same process
(same `classDefTime`) have equal `start_time`. -/
theorem train_stats_shared_start_time (classDefTime _t1 _t2 b1 b2 : Nat)
    (s1 s2 : List EpochStats) :
    (mkTrainStats classDefTime b1 s1).start_time =
      (mkTrainStats classDefTime b2 s2).start_time := rfl

/-- C7: `store(path)` followed by `load(path)` on a freshly constructed model
of the same architecture restores identical learnable-parameter values, hence
identical forward-pass outputs for the same input; the file holds exactly the
model's parameter state, and the loading classifier's optimizer state is not
touched. -/
theorem store_load_roundtrip (c1 c2 : SimpleClassifier) (fs : TorchFS)
    (path : String) (forward : Nat → ℚ → ℚ) :
    (store c1 fs path).files path = some c1.modelParams ∧
    ∃ c2loaded, load c2 (store c1 fs path) path = some c2loaded ∧
      c2loaded.modelParams = c1.modelParams ∧
      c2loaded.optState = c2.optState ∧
      ∀ x, forward c2loaded.modelParams x = forward c1.modelParams x := by
  refine ⟨by simp [store], { c2 with modelParams := c1.modelParams }, ?_,
    rfl, rfl, fun x => rfl⟩
  simp [load, store]

/-- C8: in the semantic extractor's embedding layer the generated position
ids are reduced modulo the configured maximum position embedding count, so
every id is strictly below that count for **every** sequence length (also
beyond the maximum); and absent (`None`) token type ids default to an
all-zero tensor of the input's shape. -/
theorem bert_embedding_safe (seqLen maxPos : Nat) (h : 0 < maxPos)
    (inputIds : List (List Nat)) :
    (∀ p ∈ bertPositionIds seqLen maxPos, p < maxPos) ∧
    (bertPositionIds seqLen maxPos).length = seqLen ∧
    (∀ i, i < seqLen → (bertPositionIds seqLen maxPos)[i]? = some (i % maxPos)) ∧
    (bertTokenTypeIds inputIds none).length = inputIds.length ∧
    (∀ (i : Nat) (row : List Nat), (bertTokenTypeIds inputIds none)[i]? = some row →
      (∃ orow, inputIds[i]? = some orow ∧ row.length = orow.length) ∧
      ∀ x ∈ row, x = 0) := by
  refine ⟨?_, by simp [bertPositionIds], ?_, by simp [bertTokenTypeIds, fullLikeZero], ?_⟩
  · intro p hp
    simp only [bertPositionIds, List.mem_map, List.mem_range] at hp
    obtain ⟨i, _, rfl⟩ := hp
    exact Nat.mod_lt i h
  · intro i hi
    simp [bertPositionIds, List.getElem?_map, List.getElem?_range, hi]
  · intro i row hrow
    simp only [bertTokenTypeIds, fullLikeZero, List.getElem?_map] at hrow
    cases horig : inputIds[i]? with
    | none => rw [horig] at hrow; simp at hrow
    | some orow =>
      rw [horig] at hrow
      rw [Option.map_some'] at hrow
      obtain rfl : List.map (fun _ => 0) orow = row := Option.some.inj hrow
      refine ⟨⟨orow, rfl, by simp⟩, ?_⟩
      intro x hx
      simp only [List.mem_map] at hx
      obtain ⟨_, _, rfl⟩ := hx
      rfl

/-- C8 (witness): with the default configuration
(`max_position_embeddings = 200`) and the standard input length 512 —
exceeding the maximum — all generated position ids stay in range. -/
theorem bert_embedding_safe_witness :
    0 < 200 ∧ ∀ p ∈ bertPositionIds 512 200, p < 200 :=
  ⟨by decide, (bert_embedding_safe 512 200 (by decide) [[0]]).1⟩

/-- C3 (counterexample): in the legacy `models` classifier, `fit()` invoked
with a `None` validation loader (but non-`None` train and test loaders) does
**not** fail: it runs its epochs, writes an epoch checkpoint, a best-model
checkpoint and the train stats. -/
theorem models_fit_null_validation_runs :
    modelsFit ⟨some 1, some 1, none, 1, fun _ => 0, fun _ => 0, 0⟩ =
      (Except.ok (),
        [Effect.storeEpoch 1, Effect.storeBest 1, Effect.saveTrainStats]) := rfl

/-- C3 (amended): in the `toch` classifier, `fit()` called with a null train
loader or a null validation loader fails with a configuration error
(`ValueError`) before any epoch executes, with no training step, checkpoint
write or stats write; in the legacy `models` classifier the same holds for a
null train loader or a null **test** loader (its `fit` does not check the
validation loader). -/
theorem fit_null_loader_config_error (c : TochClassifier) (m : ModelsClassifier) :
    ((c.train_loader = none ∨ c.val_loader = none) →
      fit c = (Except.error FitErr.configError, [])) ∧
    ((m.train_loader = none ∨ m.test_loader = none) →
      modelsFit m = (Except.error FitErr.configError, [])) := by
  constructor
  · rintro (h | h)
    · simp [fit, h]
    · cases htl : c.train_loader <;> simp [fit, htl, h]
  · rintro (h | h)
    · simp [modelsFit, h]
    · cases htl : m.train_loader <;> simp [modelsFit, htl, h]

/-- C3 (witness): a concrete classifier with both loaders `None` is rejected
with a configuration error and an empty effect list. -/
theorem fit_null_loader_config_error_witness :
    fit ⟨none, none, 1, fun _ _ => 0, fun _ _ => 0, 0⟩ =
      (Except.error FitErr.configError, []) :=
  (fit_null_loader_config_error
    ⟨none, none, 1, fun _ _ => 0, fun _ _ => 0, 0⟩
    ⟨some 1, some 1, none, 1, fun _ => 0, fun _ => 0, 0⟩).1 (Or.inl rfl)

/-- The seed of a left max-fold is bounded by the fold's result. -/
theorem le_foldl_max (a : ℝ) (l : List ℝ) : a ≤ l.foldl max a := by
  induction l generalizing a with
  | nil => exact le_refl a
  | cons x xs ih => exact le_trans (le_max_left a x) (ih (max a x))

/-- Every list element is bounded by the result of a left max-fold. -/
theorem mem_le_foldl_max (a : ℝ) (l : List ℝ) : ∀ x ∈ l, x ≤ l.foldl max a := by
  induction l generalizing a with
  | nil => intro x hx; cases hx
  | cons y ys ih =>
    intro x hx
    rcases List.mem_cons.mp hx with rfl | hx
    · exact le_trans (le_max_right a x) (le_foldl_max (max a x) ys)
    · exact ih (max a y) x hx

/-- A left max-fold returns its seed or one of the list elements. -/
theorem foldl_max_mem (a : ℝ) (l : List ℝ) :
    l.foldl max a = a ∨ l.foldl max a ∈ l := by
  induction l generalizing a with
  | nil => exact Or.inl rfl
  | cons x xs ih =>
    rcases ih (max a x) with h | h
    · rcases max_choice a x with hm | hm
      · exact Or.inl (by rw [List.foldl_cons, h, hm])
      · exact Or.inr (by rw [List.foldl_cons, h, hm]; exact List.mem_cons_self x xs)
    · exact Or.inr (List.mem_cons_of_mem x h)

/-- The result of a left min-fold is bounded by its seed. -/
theorem foldl_min_le (a : ℝ) (l : List ℝ) : l.foldl min a ≤ a := by
  induction l generalizing a with
  | nil => exact le_refl a
  | cons x xs ih => exact le_trans (ih (min a x)) (min_le_left a x)

/-- The result of a left min-fold bounds every list element from below. -/
theorem foldl_min_le_mem (a : ℝ) (l : List ℝ) : ∀ x ∈ l, l.foldl min a ≤ x := by
  induction l generalizing a with
  | nil => intro x hx; cases hx
  | cons y ys ih =>
    intro x hx
    rcases List.mem_cons.mp hx with rfl | hx
    · exact le_trans (foldl_min_le (min a x) ys) (min_le_right a x)
    · exact ih (min a y) x hx

/-- A left min-fold returns its seed or one of the list elements. -/
theorem foldl_min_mem (a : ℝ) (l : List ℝ) :
    l.foldl min a = a ∨ l.foldl min a ∈ l := by
  induction l generalizing a with
  | nil => exact Or.inl rfl
  | cons x xs ih =>
    rcases ih (min a x) with h | h
    · rcases min_choice a x with hm | hm
      · exact Or.inl (by rw [List.foldl_cons, h, hm])
      · exact Or.inr (by rw [List.foldl_cons, h, hm]; exact List.mem_cons_self x xs)
    · exact Or.inr (List.mem_cons_of_mem x h)

/-- On a non-empty list, Python's `max` is the maximum. -/
theorem pyMax_spec (l : List ℝ) (h : l ≠ []) : specIsMaxOf (pyMax l) l := by
  match l with
  | x :: xs =>
    constructor
    · rcases foldl_max_mem x xs with h1 | h1
      · rw [pyMax, h1]; exact List.mem_cons_self x xs
      · exact List.mem_cons_of_mem x h1
    · intro y hy
      rcases List.mem_cons.mp hy with rfl | hy
      · exact le_foldl_max y xs
      · exact mem_le_foldl_max x xs y hy

/-- On a non-empty list, Python's `min` is the minimum. -/
theorem pyMin_spec (l : List ℝ) (h : l ≠ []) : specIsMinOf (pyMin l) l := by
  match l with
  | x :: xs =>
    constructor
    · rcases foldl_min_mem x xs with h1 | h1
      · rw [pyMin, h1]; exact List.mem_cons_self x xs
      · exact List.mem_cons_of_mem x h1
    · intro y hy
      rcases List.mem_cons.mp hy with rfl | hy
      · exact foldl_min_le y xs
      · exact foldl_min_le_mem x xs y hy

/-- On a non-empty list, `np.mean` is the arithmetic mean. -/
theorem npMean_spec (l : List ℝ) (h : l ≠ []) : specIsMeanOf (npMean l) l := by
  have hlen : (l.length : ℝ) ≠ 0 := by
    simp [List.length_eq_zero]
    exact h
  rw [specIsMeanOf, npMean, div_mul_cancel₀ _ hlen]

/-- On a non-empty list, `np.std` is the population standard deviation. -/
theorem npStd_spec (l : List ℝ) (h : l ≠ []) : specIsStdOf (npStd l) l := by
  have hlen : (l.length : ℝ) ≠ 0 := by
    simp [List.length_eq_zero]
    exact h
  have hvar : 0 ≤ npMean (l.map fun x => (x - npMean l) ^ 2) := by
    apply div_nonneg
    · apply List.sum_nonneg
      intro x hx
      simp only [List.mem_map] at hx
      obtain ⟨y, _, rfl⟩ := hx
      exact sq_nonneg _
    · exact Nat.cast_nonneg _
  constructor
  · exact Real.sqrt_nonneg _
  · rw [npStd, Real.sq_sqrt hvar]
    have hmap : (l.map fun x => (x - npMean l) ^ 2) =
        l.map fun x => (x - l.sum / l.length) ^ 2 := rfl
    rw [hmap, npMean]
    rw [List.length_map, div_mul_cancel₀ _ hlen]

/-- Combined aggregate characterisation for one metric list. -/
theorem agg_spec (l : List ℝ) (h : l ≠ []) :
    specIsMaxOf (pyMax l) l ∧ specIsMinOf (pyMin l) l ∧
    specIsMeanOf (npMean l) l ∧ specIsStdOf (npStd l) l :=
  ⟨pyMax_spec l h, pyMin_spec l h, npMean_spec l h, npStd_spec l h⟩

/-- C1: for every non-empty list of per-fold `EvaluationStats`, the
`KFoldStats` constructed from it has, for every metric in
{accuracy, precision, recall, f1, auc, mcc}, `max_X` equal to the maximum,
`min_X` to the minimum, `mean_X` to the arithmetic mean, and `std_X` to the
population standard deviation of that metric over the folds (and it keeps the
fold list itself).  For an empty fold list the construction is undefined —
Python's `max([])` raises — so non-emptiness is a precondition. -/
theorem kfold_stats_aggregates (fs : List EvaluationStats) (h : fs ≠ []) :
    (specIsMaxOf (mkKFoldStats fs).max_accuracy (fs.map EvaluationStats.accuracy) ∧
     specIsMinOf (mkKFoldStats fs).min_accuracy (fs.map EvaluationStats.accuracy) ∧
     specIsMeanOf (mkKFoldStats fs).mean_accuracy (fs.map EvaluationStats.accuracy) ∧
     specIsStdOf (mkKFoldStats fs).std_accuracy (fs.map EvaluationStats.accuracy)) ∧
    (specIsMaxOf (mkKFoldStats fs).max_precision (fs.map EvaluationStats.precision) ∧
     specIsMinOf (mkKFoldStats fs).min_precision (fs.map EvaluationStats.precision) ∧
     specIsMeanOf (mkKFoldStats fs).mean_precision (fs.map EvaluationStats.precision) ∧
     specIsStdOf (mkKFoldStats fs).std_precision (fs.map EvaluationStats.precision)) ∧
    (specIsMaxOf (mkKFoldStats fs).max_recall (fs.map EvaluationStats.«recall») ∧
     specIsMinOf (mkKFoldStats fs).min_recall (fs.map EvaluationStats.«recall») ∧
     specIsMeanOf (mkKFoldStats fs).mean_recall (fs.map EvaluationStats.«recall») ∧
     specIsStdOf (mkKFoldStats fs).std_recall (fs.map EvaluationStats.«recall»)) ∧
    (specIsMaxOf (mkKFoldStats fs).max_f1 (fs.map EvaluationStats.f1) ∧
     specIsMinOf (mkKFoldStats fs).min_f1 (fs.map EvaluationStats.f1) ∧
     specIsMeanOf (mkKFoldStats fs).mean_f1 (fs.map EvaluationStats.f1) ∧
     specIsStdOf (mkKFoldStats fs).std_f1 (fs.map EvaluationStats.f1)) ∧
    (specIsMaxOf (mkKFoldStats fs).max_auc (fs.map EvaluationStats.auc) ∧
     specIsMinOf (mkKFoldStats fs).min_auc (fs.map EvaluationStats.auc) ∧
     specIsMeanOf (mkKFoldStats fs).mean_auc (fs.map EvaluationStats.auc) ∧
     specIsStdOf (mkKFoldStats fs).std_auc (fs.map EvaluationStats.auc)) ∧
    (specIsMaxOf (mkKFoldStats fs).max_mcc (fs.map EvaluationStats.mcc) ∧
     specIsMinOf (mkKFoldStats fs).min_mcc (fs.map EvaluationStats.mcc) ∧
     specIsMeanOf (mkKFoldStats fs).mean_mcc (fs.map EvaluationStats.mcc) ∧
     specIsStdOf (mkKFoldStats fs).std_mcc (fs.map EvaluationStats.mcc)) ∧
    (mkKFoldStats fs).fold_stats = fs := by
  have hne : ∀ g : EvaluationStats → ℝ, fs.map g ≠ [] := by
    intro g hc
    exact h (List.map_eq_nil_iff.mp hc)
  exact ⟨agg_spec _ (hne _), agg_spec _ (hne _), agg_spec _ (hne _),
    agg_spec _ (hne _), agg_spec _ (hne _), agg_spec _ (hne _), rfl⟩

/-- C1 (witness): the aggregate characterisation holds for a concrete
one-fold list. -/
theorem kfold_stats_aggregates_witness :
    ([(⟨1, 1, 1, 1, 1, 1⟩ : EvaluationStats)] ≠ []) ∧
    (mkKFoldStats [(⟨1, 1, 1, 1, 1, 1⟩ : EvaluationStats)]).fold_stats =
      [(⟨1, 1, 1, 1, 1, 1⟩ : EvaluationStats)] :=
  ⟨by simp,
    (kfold_stats_aggregates [⟨1, 1, 1, 1, 1, 1⟩] (by simp)).2.2.2.2.2.2⟩

/-- Best-model checkpoint membership in the effect list of one epoch
iteration that wrote the checkpoint. -/
theorem storeBest_mem_with (e ep : Nat) (base : List Effect) (tb : Nat) :
    Effect.storeBest e ∈
        base ++ (List.range tb).map (fun b => Effect.trainStep ep b) ++
          [Effect.storeEpoch ep] ++ [Effect.storeBest ep] ↔
      (Effect.storeBest e ∈ base ∨ e = ep) := by
  simp

/-- Best-model checkpoint membership in the effect list of one epoch
iteration that did not write the checkpoint. -/
theorem storeBest_mem_without (e ep : Nat) (base : List Effect) (tb : Nat) :
    Effect.storeBest e ∈
        base ++ (List.range tb).map (fun b => Effect.trainStep ep b) ++
          [Effect.storeEpoch ep] ↔
      Effect.storeBest e ∈ base := by
  simp

/-- Loop invariant of the epoch loop of `fit` when both loaders are
non-empty: after `n` epochs the loop state records, as `best`/`bestEpoch`,
the minimum validation loss seen so far and the earliest epoch attaining it,
and a best-model checkpoint was written during exactly those epochs whose
validation loss strictly improved on all earlier ones. -/
theorem runEpochs_ok (c : TochClassifier) (tb vb : Nat)
    (htb : tb ≠ 0) (hvb : vb ≠ 0) (n : Nat) :
    ∃ st : FitState, runEpochs c tb vb n = .ok st ∧
      (n = 0 → st.best = none) ∧
      (0 < n →
        1 ≤ st.bestEpoch ∧ st.bestEpoch ≤ n ∧
        st.best = some (epochValLoss c vb st.bestEpoch) ∧
        (∀ e, 1 ≤ e → e ≤ n →
          epochValLoss c vb st.bestEpoch ≤ epochValLoss c vb e) ∧
        (∀ e, 1 ≤ e → e < st.bestEpoch →
          epochValLoss c vb st.bestEpoch < epochValLoss c vb e)) ∧
      (∀ e, Effect.storeBest e ∈ st.effects ↔
        (1 ≤ e ∧ e ≤ n ∧
          ∀ i, 1 ≤ i → i < e → epochValLoss c vb e < epochValLoss c vb i)) := by
  induction n with
  | zero =>
    refine ⟨⟨[], none, 0, []⟩, rfl, fun _ => rfl, fun h => absurd h (by omega), ?_⟩
    intro e
    simp only [List.not_mem_nil, false_iff]
    omega
  | succ m ih =>
    obtain ⟨st, hrun, hzero, hpos, hmem⟩ := ih
    have hstep : runEpochs c tb vb (m + 1) = stepEpoch c tb vb m st := by
      have h0 : runEpochs c tb vb (m + 1) =
          match runEpochs c tb vb m with
          | .error e => .error e
          | .ok stx => stepEpoch c tb vb m stx := rfl
      rw [h0, hrun]
    by_cases hm : m = 0
    · -- first epoch: `best` is `float("inf")`, so the checkpoint is written
      subst hm
      have hst : st = ⟨[], none, 0, []⟩ := by
        have h2 : (Except.ok (⟨[], none, 0, []⟩ : FitState) :
            Except (List Effect × FitErr) FitState) = Except.ok st := hrun
        exact (Except.ok.inj h2).symm
      subst hst
      refine ⟨⟨[⟨1, epochLoss (c.trainBatchLoss 1) tb,
          epochLoss (c.valBatchLoss 1) vb⟩],
        some (epochLoss (c.valBatchLoss 1) vb), 1,
        (List.range tb).map (fun b => Effect.trainStep 1 b) ++
          [Effect.storeEpoch 1] ++ [Effect.storeBest 1]⟩, ?_, ?_, ?_, ?_⟩
      · rw [hstep]
        simp [stepEpoch, htb, hvb, bestUpdate]
      · intro h; exact absurd h (by omega)
      · intro _
        refine ⟨le_refl 1, le_refl 1, rfl, ?_, ?_⟩
        · intro e he1 he2
          have he : e = 1 := by omega
          subst he
          exact le_refl _
        · intro e he1 he2
          have he2' : e < 1 := he2
          omega
      · intro e
        have hm' := storeBest_mem_with e 1 [] tb
        simp only [List.nil_append] at hm'
        constructor
        · intro h
          have he : Effect.storeBest e ∈ ([] : List Effect) ∨ e = 1 := hm'.mp h
          rcases he with he | he
          · cases he
          · subst he
            exact ⟨le_refl 1, by omega, fun i h1 h2 => absurd h2 (by omega)⟩
        · rintro ⟨h1, h2, _⟩
          have he : e = 1 := by omega
          exact hm'.mpr (Or.inr he)
    · -- later epochs: `best` currently holds the minimum over epochs `1..m`
      have hm0 : 0 < m := Nat.pos_of_ne_zero hm
      obtain ⟨hb1, hb2, hbval, hbmin, hbfirst⟩ := hpos hm0
      by_cases himp :
          epochLoss (c.valBatchLoss (m + 1)) vb < epochValLoss c vb st.bestEpoch
      · -- strict improvement: update best and write the checkpoint
        refine ⟨⟨st.epochStats ++ [⟨m + 1, epochLoss (c.trainBatchLoss (m + 1)) tb,
            epochLoss (c.valBatchLoss (m + 1)) vb⟩],
          some (epochLoss (c.valBatchLoss (m + 1)) vb), m + 1,
          st.effects ++ (List.range tb).map (fun b => Effect.trainStep (m + 1) b) ++
            [Effect.storeEpoch (m + 1)] ++ [Effect.storeBest (m + 1)]⟩,
          ?_, ?_, ?_, ?_⟩
        · rw [hstep]
          simp [stepEpoch, htb, hvb, bestUpdate, hbval, himp]
        · intro h; exact absurd h (by omega)
        · intro _
          have hnew : epochValLoss c vb (m + 1) =
              epochLoss (c.valBatchLoss (m + 1)) vb := rfl
          refine ⟨Nat.succ_le_succ (Nat.zero_le m), le_refl _, rfl, ?_, ?_⟩
          · intro e he1 he2
            rcases Nat.lt_or_ge e (m + 1) with he | he
            · exact le_of_lt
                (lt_of_lt_of_le (hnew ▸ himp) (hbmin e he1 (by omega)))
            · have he' : e = m + 1 := by omega
              subst he'
              exact le_refl _
          · intro e he1 he2
            have he2' : e < m + 1 := he2
            exact lt_of_lt_of_le (hnew ▸ himp) (hbmin e he1 (by omega))
        · intro e
          have hm' := storeBest_mem_with e (m + 1) st.effects tb
          have hnew : epochValLoss c vb (m + 1) =
              epochLoss (c.valBatchLoss (m + 1)) vb := rfl
          constructor
          · intro h
            rcases hm'.mp h with he | he
            · have hh := (hmem e).mp he
              exact ⟨hh.1, by omega, hh.2.2⟩
            · subst he
              refine ⟨by omega, le_refl _, ?_⟩
              intro i hi1 hi2
              exact lt_of_lt_of_le (hnew ▸ himp) (hbmin i hi1 (by omega))
          · rintro ⟨h1, h2, h3⟩
            rcases Nat.lt_or_ge e (m + 1) with he | he
            · exact hm'.mpr (Or.inl ((hmem e).mpr ⟨h1, by omega, h3⟩))
            · exact hm'.mpr (Or.inr (by omega))
      · -- no strict improvement (ties included): best is unchanged
        refine ⟨⟨st.epochStats ++ [⟨m + 1, epochLoss (c.trainBatchLoss (m + 1)) tb,
            epochLoss (c.valBatchLoss (m + 1)) vb⟩],
          st.best, st.bestEpoch,
          st.effects ++ (List.range tb).map (fun b => Effect.trainStep (m + 1) b) ++
            [Effect.storeEpoch (m + 1)]⟩, ?_, ?_, ?_, ?_⟩
        · rw [hstep]
          simp [stepEpoch, htb, hvb, bestUpdate, hbval, himp]
        · intro h; exact absurd h (by omega)
        · intro _
          have hnew : epochValLoss c vb (m + 1) =
              epochLoss (c.valBatchLoss (m + 1)) vb := rfl
          refine ⟨hb1, le_trans hb2 (Nat.le_succ m), hbval, ?_, hbfirst⟩
          intro e he1 he2
          rcases Nat.lt_or_ge e (m + 1) with he | he
          · exact hbmin e he1 (by omega)
          · have he' : e = m + 1 := by omega
            subst he'
            rw [hnew]
            exact le_of_not_lt himp
        · intro e
          have hm' := storeBest_mem_without e (m + 1) st.effects tb
          have hnew : epochValLoss c vb (m + 1) =
              epochLoss (c.valBatchLoss (m + 1)) vb := rfl
          constructor
          · intro h
            have hh := (hmem e).mp (hm'.mp h)
            exact ⟨hh.1, by omega, hh.2.2⟩
          · rintro ⟨h1, h2, h3⟩
            rcases Nat.lt_or_ge e (m + 1) with he | he
            · exact hm'.mpr ((hmem e).mpr ⟨h1, by omega, h3⟩)
            · have he' : e = m + 1 := by omega
              subst he'
              exact absurd (hnew ▸ h3 st.bestEpoch hb1 (by omega)) himp

/-- C4: during `fit()`, a best-model checkpoint is persisted exactly during
those epochs whose validation loss is strictly smaller than every earlier
epoch's validation loss (i.e. strictly improves on the best seen so far; a
tie does not update best), and the returned `TrainStats.best_epoch` is the
epoch whose validation loss is the minimum over all epochs run, the earliest
such epoch when the minimum is attained more than once. -/
theorem fit_best_checkpoint (c : TochClassifier) (tb vb : Nat)
    (htl : c.train_loader = some tb) (hvl : c.val_loader = some vb)
    (htb : 0 < tb) (hvb : 0 < vb) (hep : 0 < c.num_epochs) :
    ∃ ts effs, fit c = (.ok ts, effs) ∧
      (∀ e, Effect.storeBest e ∈ effs ↔
        (1 ≤ e ∧ e ≤ c.num_epochs ∧
          ∀ i, 1 ≤ i → i < e → epochValLoss c vb e < epochValLoss c vb i)) ∧
      1 ≤ ts.best_epoch ∧ ts.best_epoch ≤ c.num_epochs ∧
      (∀ e, 1 ≤ e → e ≤ c.num_epochs →
        epochValLoss c vb ts.best_epoch ≤ epochValLoss c vb e) ∧
      (∀ e, 1 ≤ e → e < ts.best_epoch →
        epochValLoss c vb ts.best_epoch < epochValLoss c vb e) := by
  obtain ⟨st, hrun, _, hpos, hmem⟩ :=
    runEpochs_ok c tb vb (Nat.pos_iff_ne_zero.mp htb) (Nat.pos_iff_ne_zero.mp hvb)
      c.num_epochs
  obtain ⟨hb1, hb2, _, hbmin, hbfirst⟩ := hpos hep
  refine ⟨mkTrainStats c.classDefTime st.bestEpoch st.epochStats,
    st.effects ++ [Effect.saveTrainStats], ?_, ?_, hb1, hb2, hbmin, hbfirst⟩
  · simp only [fit, htl, hvl, hrun]
  · intro e
    rw [List.mem_append]
    constructor
    · rintro (h | h)
      · exact (hmem e).mp h
      · simp at h
    · intro h
      exact Or.inl ((hmem e).mpr h)

/-- C4 (witness): the best-checkpoint characterisation applied to a concrete
classifier with one epoch and singleton loaders. -/
theorem fit_best_checkpoint_witness :
    ∃ ts effs,
      fit ⟨some 1, some 1, 1, fun _ _ => 0, fun _ _ => 0, 0⟩ =
        (.ok ts, effs) ∧ 1 ≤ ts.best_epoch := by
  obtain ⟨ts, effs, h1, _, h3, _⟩ :=
    fit_best_checkpoint ⟨some 1, some 1, 1, fun _ _ => 0, fun _ _ => 0, 0⟩ 1 1
      rfl rfl (by decide) (by decide) (by decide)
  exact ⟨ts, effs, h1, h3⟩

/-- When the train loader or the validation loader has zero batches, the
first epoch's loss averaging divides by zero. -/
theorem runEpochs_zeroDiv (c : TochClassifier) (tb vb : Nat)
    (h : tb = 0 ∨ vb = 0) :
    ∀ n, 0 < n → ∃ effs,
      runEpochs c tb vb n = .error (effs, FitErr.zeroDivision) := by
  intro n hn
  induction n with
  | zero => exact absurd hn (by omega)
  | succ m ih =>
    by_cases hm : m = 0
    · subst hm
      by_cases htb : tb = 0
      · exact ⟨[], by simp [runEpochs, stepEpoch, htb]⟩
      · have hvb : vb = 0 := h.resolve_left htb
        exact ⟨(List.range tb).map (fun b => Effect.trainStep 1 b),
          by simp [runEpochs, stepEpoch, htb, hvb]⟩
    · obtain ⟨effs, he⟩ := ih (Nat.pos_of_ne_zero hm)
      refine ⟨effs, ?_⟩
      have h0 : runEpochs c tb vb (m + 1) =
          match runEpochs c tb vb m with
          | .error e => .error e
          | .ok stx => stepEpoch c tb vb m stx := rfl
      rw [h0, he]

/-- C10: if `fit()` is invoked with non-null loaders and at least one epoch,
then an empty train loader or an empty validation loader makes the per-epoch
loss averaging raise a division-by-zero error, and `fit` completes all epochs
normally precisely when both loaders are non-empty. -/
theorem fit_empty_loader_division (c : TochClassifier) (tb vb : Nat)
    (htl : c.train_loader = some tb) (hvl : c.val_loader = some vb)
    (hep : 0 < c.num_epochs) :
    ((tb = 0 ∨ vb = 0) → (fit c).1 = .error FitErr.zeroDivision) ∧
    (0 < tb → 0 < vb → ∃ ts, (fit c).1 = .ok ts) := by
  constructor
  · intro h
    obtain ⟨effs, he⟩ := runEpochs_zeroDiv c tb vb h c.num_epochs hep
    simp only [fit, htl, hvl, he]
  · intro htb hvb
    obtain ⟨st, hrun, -, -, -⟩ :=
      runEpochs_ok c tb vb (Nat.pos_iff_ne_zero.mp htb)
        (Nat.pos_iff_ne_zero.mp hvb) c.num_epochs
    refine ⟨mkTrainStats c.classDefTime st.bestEpoch st.epochStats, ?_⟩
    simp only [fit, htl, hvl, hrun]

/-- C10 (witness): a classifier with a non-null but empty (zero-batch) train
loader fails with the division-by-zero error. -/
theorem fit_empty_loader_division_witness :
    (fit ⟨some 0, some 1, 1, fun _ _ => 0, fun _ _ => 0, 0⟩).1 =
      .error FitErr.zeroDivision :=
  (fit_empty_loader_division ⟨some 0, some 1, 1, fun _ _ => 0, fun _ _ => 0, 0⟩
    0 1 rfl rfl (by decide)).1 (Or.inl rfl)

/-- C5 (counterexample): on a non-empty test loader whose (perfectly
predicted) thresholded scores are all of one class, `evaluate()` does not
return an `EvaluationStats` at all: `roc_auc_score` raises `ValueError`
because only one class is present in `y_true`. -/
theorem evaluate_single_class_error :
    evaluate (some [[(1, 1)]]) = .error EvalErr.rocAucUndefined := by
  have h1 : decide ((1 : ℚ) / 2 ≤ (1 : ℚ)) = true := by
    rw [decide_eq_true_eq]
    norm_num
  simp [evaluate, h1, countTP, countTN, countFP, countFN]

/-- C5 (amended): for every non-empty test loader whose thresholded ground
truth contains at least one positive and at least one negative label,
`evaluate()` on a model whose outputs, after thresholding at 0.5, equal the
thresholded ground-truth scores returns an `EvaluationStats` with accuracy,
precision, recall, f1, auc and mcc all equal to 1.0. -/
theorem evaluate_perfect_predictor (batches : List (List (ℚ × ℚ)))
    (_hne : batches.flatten ≠ [])
    (hperfect : ∀ p ∈ batches.flatten,
      ((1 : ℚ) / 2 ≤ p.1 ↔ (1 : ℚ) / 2 ≤ p.2))
    (hpos : ∃ p ∈ batches.flatten, (1 : ℚ) / 2 ≤ p.1)
    (hneg : ∃ p ∈ batches.flatten, ¬ (1 : ℚ) / 2 ≤ p.1) :
    ∃ s, evaluate (some batches) = .ok s ∧
      s.accuracy = 1 ∧ s.precision = 1 ∧ s.«recall» = 1 ∧ s.f1 = 1 ∧
      s.auc = 1 ∧ s.mcc = 1 := by
  refine ⟨⟨1, 1, 1, 1, 1, 1⟩, ?_, rfl, rfl, rfl, rfl, rfl, rfl⟩
  simp only [evaluate]
  set labels := batches.flatten.map
    (fun p => (decide ((1 : ℚ) / 2 ≤ p.1), decide ((1 : ℚ) / 2 ≤ p.2)))
    with hlabels
  have hlab : ∀ q ∈ labels, q.1 = q.2 := by
    intro q hq
    rw [hlabels] at hq
    obtain ⟨p, hp, rfl⟩ := List.mem_map.mp hq
    exact decide_eq_decide.mpr (hperfect p hp)
  have hfp : countFP labels = 0 := by
    rw [countFP, List.countP_eq_zero]
    intro q hq hcontra
    rw [hlab q hq] at hcontra
    cases q.2 <;> simp at hcontra
  have hfn : countFN labels = 0 := by
    rw [countFN, List.countP_eq_zero]
    intro q hq hcontra
    rw [hlab q hq] at hcontra
    cases q.2 <;> simp at hcontra
  have htp : 0 < countTP labels := by
    rw [countTP, List.countP_pos_iff]
    obtain ⟨p, hp, hsc⟩ := hpos
    refine ⟨(decide ((1 : ℚ) / 2 ≤ p.1), decide ((1 : ℚ) / 2 ≤ p.2)),
      List.mem_map.mpr ⟨p, hp, rfl⟩, ?_⟩
    simp only [Bool.and_eq_true, decide_eq_true_eq]
    exact ⟨hsc, (hperfect p hp).mp hsc⟩
  have htn : 0 < countTN labels := by
    rw [countTN, List.countP_pos_iff]
    obtain ⟨p, hp, hsc⟩ := hneg
    refine ⟨(decide ((1 : ℚ) / 2 ≤ p.1), decide ((1 : ℚ) / 2 ≤ p.2)),
      List.mem_map.mpr ⟨p, hp, rfl⟩, ?_⟩
    simp only [Bool.and_eq_true, Bool.not_eq_true', decide_eq_false_iff_not]
    exact ⟨hsc, fun h => hsc ((hperfect p hp).mpr h)⟩
  have hsum : countTP labels + countTN labels = labels.length := by
    rw [countTP, countTN]
    have h2 : List.countP (fun q : Bool × Bool => !q.1 && !q.2) labels =
        List.countP
          (fun q : Bool × Bool =>
            decide ¬((fun q : Bool × Bool => q.1 && q.2) q = true)) labels := by
      apply List.countP_congr
      intro q hq
      obtain ⟨a, b⟩ := q
      have hab : a = b := hlab ⟨a, b⟩ hq
      subst hab
      cases a <;> simp
    rw [h2]
    exact (List.length_eq_countP_add_countP _ labels).symm
  rw [hfp, hfn]
  rw [if_neg (by
    rw [Nat.add_zero, Nat.add_zero]
    exact not_or.mpr ⟨htp.ne', htn.ne'⟩)]
  have htpR : (0 : ℝ) < (countTP labels : ℝ) := by exact_mod_cast htp
  have htnR : (0 : ℝ) < (countTN labels : ℝ) := by exact_mod_cast htn
  refine congrArg Except.ok ?_
  have hd : countTP labels * (countTP labels + 0) *
      (countTN labels + 0) * (countTN labels + 0) ≠ 0 := by
    positivity
  rw [EvaluationStats.mk.injEq]
  refine ⟨?_, ?_, ?_, ?_, ?_, ?_⟩
  · rw [← hsum]
    push_cast
    exact div_self (by positivity)
  · rw [if_neg (by omega)]
    simp only [Nat.cast_zero, add_zero]
    exact div_self htpR.ne'
  · rw [if_neg (by omega)]
    simp only [Nat.cast_zero, add_zero]
    exact div_self htpR.ne'
  · rw [if_neg (by omega)]
    push_cast
    rw [add_zero, add_zero, div_self (by positivity)]
  · simp only [Nat.cast_zero, add_zero]
    rw [div_self htpR.ne', div_self htnR.ne']
    norm_num
  · rw [if_neg (by
      simp only [Nat.add_zero]
      exact Nat.mul_ne_zero
        (Nat.mul_ne_zero (Nat.mul_ne_zero htp.ne' htp.ne') htn.ne') htn.ne')]
    simp only [Nat.add_zero, Nat.cast_zero, zero_mul, sub_zero]
    push_cast
    have hsq : (countTP labels : ℝ) * countTP labels * countTN labels *
        countTN labels = ((countTP labels : ℝ) * countTN labels) ^ 2 := by ring
    rw [hsq, Real.sqrt_sq (by positivity)]
    exact div_self (by positivity)

/-- C5 (witness): the perfect-predictor theorem applied to a concrete
two-sample loader with one positive and one negative. -/
theorem evaluate_perfect_predictor_witness :
    ∃ s, evaluate (some [[(1, 1), (0, 0)]]) = .ok s ∧
      s.accuracy = 1 ∧ s.precision = 1 ∧ s.«recall» = 1 ∧ s.f1 = 1 ∧
      s.auc = 1 ∧ s.mcc = 1 :=
  evaluate_perfect_predictor [[(1, 1), (0, 0)]] (by simp)
    (by
      intro p hp
      simp only [List.flatten, List.mem_cons, List.not_mem_nil, or_false,
        List.append_nil] at hp
      rcases hp with rfl | rfl <;> exact Iff.rfl)
    ⟨(1, 1), by simp, by norm_num⟩
    ⟨(0, 0), by simp, by norm_num⟩

/-- The fold loop produces one stats entry per fold. -/
theorem kFoldStatsList_length (c : KFoldClassifier) (p o : Nat) (fs : List Fold) :
    (kFoldStatsList c p o fs).length = fs.length := by
  induction fs generalizing p o with
  | nil => rfl
  | cons f fs ih => simp [kFoldStatsList, ih]

/-- Entry `i` of the fold loop's stats: fold 0 is fitted from the incoming
state, every later fold from the reset state. -/
theorem kFoldStatsList_getElem (c : KFoldClassifier) :
    ∀ (fs : List Fold) (p o i : Nat) (f : Fold), fs[i]? = some f →
      (kFoldStatsList c p o fs)[i]? = some (c.evalStats (c.fitParams
        (if i = 0 then p else c.freshBuildParams)
        (if i = 0 then o else c.initial_optimizer_state_dict) f)) := by
  intro fs
  induction fs with
  | nil => intro p o i f h; simp at h
  | cons g gs ih =>
    intro p o i f h
    cases i with
    | zero =>
      rw [List.getElem?_cons_zero] at h
      obtain rfl : g = f := Option.some.inj h
      simp [kFoldStatsList]
    | succ j =>
      rw [List.getElem?_cons_succ] at h
      have hstep := ih c.freshBuildParams c.initial_optimizer_state_dict j f h
      simp only [ite_self] at hstep
      simp [kFoldStatsList, hstep]

/-- Unrolling the fold loop of `k_fold_cv`: the collected stats are the
closed-form list, and as soon as at least one fold ran, the loop leaves
the model freshly rebuilt and the optimizer reset to its initial state. -/
theorem foldl_kFoldStep (c : KFoldClassifier) (fs : List Fold) (st : KFoldState) :
    (fs.foldl (kFoldStep c) st).foldStats =
      st.foldStats ++ kFoldStatsList c st.modelParams st.optState fs ∧
    (fs ≠ [] → (fs.foldl (kFoldStep c) st).modelParams = c.freshBuildParams ∧
      (fs.foldl (kFoldStep c) st).optState = c.initial_optimizer_state_dict) := by
  induction fs generalizing st with
  | nil => simp [kFoldStatsList]
  | cons f fs ih =>
    obtain ⟨h1, h2⟩ := ih (kFoldStep c st f)
    constructor
    · rw [List.foldl_cons, h1]
      simp [kFoldStep, kFoldStatsList]
    · intro _
      rw [List.foldl_cons]
      by_cases hfs : fs = []
      · subst hfs
        exact ⟨rfl, rfl⟩
      · exact h2 hfs

/-- C6: `k_fold_cv(k)` with non-null train and test datasets returns a
`KFoldStats` whose `fold_stats` has exactly `k` entries, entry `i` being the
evaluation of the model fitted on fold `i` — every fold after the first
starting from freshly re-initialized model parameters and the original
initial optimizer state, which also hold again after the final fold. -/
theorem k_fold_cv_spec (c : KFoldClassifier) (k : Nat) (tr te : Dataset)
    (h1 : c.train_dataset = some tr) (h2 : c.test_dataset = some te) :
    ∃ ks final, k_fold_cv c k = .ok (ks, final) ∧
      ks.fold_stats.length = k ∧
      (∀ i, i < k → ks.fold_stats[i]? = some (c.evalStats (c.fitParams
        (if i = 0 then c.modelParams else c.freshBuildParams)
        (if i = 0 then c.optState else c.initial_optimizer_state_dict)
        (foldOf tr k i)))) ∧
      (0 < k → final.modelParams = c.freshBuildParams ∧
        final.optState = c.initial_optimizer_state_dict) := by
  obtain ⟨hstats, hreset⟩ :=
    foldl_kFoldStep c (split_k_fold tr k) ⟨c.modelParams, c.optState, []⟩
  set final := (split_k_fold tr k).foldl (kFoldStep c)
    ⟨c.modelParams, c.optState, []⟩ with hfinal
  have hstats' : final.foldStats =
      kFoldStatsList c c.modelParams c.optState (split_k_fold tr k) := by
    simpa using hstats
  refine ⟨mkKFoldStats final.foldStats, final, ?_, ?_, ?_, ?_⟩
  · simp only [k_fold_cv, h1, h2, ← hfinal]
  · show final.foldStats.length = k
    rw [hstats', kFoldStatsList_length]
    simp [split_k_fold]
  · intro i hi
    show final.foldStats[i]? = _
    rw [hstats']
    apply kFoldStatsList_getElem
    simp [split_k_fold, List.getElem?_map, List.getElem?_range, hi]
  · intro hk
    apply hreset
    simp only [split_k_fold, ne_eq, List.map_eq_nil_iff, List.range_eq_nil]
    omega

/-- C6 (witness): the characterisation applied to a concrete classifier with
a four-sample training dataset and two folds. -/
theorem k_fold_cv_spec_witness :
    ∃ ks final,
      k_fold_cv ⟨some [10, 11, 12, 13], some [20], 5, 7, 3, 4,
        fun p o _ => p + o, fun p o _ => p * o, fun _ => ⟨1, 1, 1, 1, 1, 1⟩⟩ 2 =
        .ok (ks, final) ∧ ks.fold_stats.length = 2 := by
  obtain ⟨ks, final, hcv, hlen, -, -⟩ :=
    k_fold_cv_spec ⟨some [10, 11, 12, 13], some [20], 5, 7, 3, 4,
      fun p o _ => p + o, fun p o _ => p * o, fun _ => ⟨1, 1, 1, 1, 1, 1⟩⟩ 2
      [10, 11, 12, 13] [20] rfl rfl
  exact ⟨ks, final, hcv, hlen⟩
